import Mathlib

/-!
Verification of `scripts/avatars/sdk_avatars.py`.

A shallow embedding of the avatar-adaptation script.  The script runs inside
Blender: it imports a GLB file, renames the object `"AvatarRoot"` to
`"Armature"`, applies transforms to `"Armature"`, renames a fixed set of
shape keys to viseme names, and re-exports the file.

Modelling choices:
* A Blender scene is a flat list of objects (`Scene`), mirroring
  `bpy.context.scene.objects`.  Object identity is the position in that list;
  an object's `children` field holds the positions of its child objects,
  mirroring Blender's object references.
* A shape-key block (`KeyBlock`) has a name and an opaque payload `value`
  standing for all of its non-name data.  An object without shape-key data
  has `shapeKeys = none` (the `hasShapekeys` attribute test).
* `collection.find(name)` returns an index or `-1`; we embed it as
  `Option Nat` with `none` for `-1`.
* Python's recursion in `traverse` is unbounded; the embedding takes a fuel
  parameter bounding the recursion depth, and theorems quantify over all
  fuel values.
* Printing is embedded as an explicit log of the printed lines; `sys.exit(1)`
  after a printed message is an exit code `1`; reaching the end of the
  script is exit code `0`.  `argv.index("--")` raising `ValueError` (no
  separator present) is embedded as the `none` result of `runScript`.
* The import and export operators (`bpy.ops.import_scene.gltf`,
  `bpy.ops.export_scene.gltf`) and the transform-apply operator are host
  functionality: import/export are parameters of `runScript` (an import
  yields a scene or an error message, an export either succeeds or yields an
  error message), and transform application changes neither names nor shape
  keys, so it only contributes its log line.
-/

set_option autoImplicit false

namespace SdkAvatars

/-- A shape-key block (`key_blocks` element): a name plus an opaque payload
standing for the rest of its data. -/
structure KeyBlock where
  name : String
  value : Int
deriving Repr, DecidableEq

/-- A scene object: its name, its shape-key blocks when it has shape-key
data, and the scene positions of its children. -/
structure ObjData where
  name : String
  shapeKeys : Option (List KeyBlock)
  children : List Nat
deriving Repr, DecidableEq

/-- The scene: the flat object collection `bpy.context.scene.objects`. -/
abbrev Scene := List ObjData

/-- The shape-key rename table (`shapekeyMap`, source lines 17-23). -/
def shapekeyMap : List (String × String) :=
  [ ("sil", "viseme_sil"), ("PP", "viseme_PP"), ("FF", "viseme_FF"),
    ("TH", "viseme_TH"), ("DD", "viseme_DD"), ("kk", "viseme_kk"),
    ("CH", "viseme_CH"), ("SS", "viseme_SS"), ("nn", "viseme_nn"),
    ("RR", "viseme_RR"), ("aa", "viseme_aa"), ("E", "viseme_E"),
    ("ih", "viseme_I"), ("oh", "viseme_O"), ("ou", "viseme_U") ]

/-- Generator `traverse` (source lines 26-30): yield the object, then recursively the
descendants.  `fuel` bounds the recursion depth of the embedding. -/
def traverse (s : Scene) : Nat → Nat → List Nat
  | 0, i => [i]
  | fuel + 1, i =>
    i :: (match s[i]? with
          | some o => o.children
          | none => []).flatMap (traverse s fuel)

/-- Test `hasShapekeys` (source lines 33-34): the object carries shape-key data. -/
def hasShapekeys (o : ObjData) : Bool :=
  o.shapeKeys.isSome

/-- Embedding of `key_blocks.find(name)`: index of the first key block with the given
name; `none` embeds Blender's `-1`. -/
def keysFind : List KeyBlock → String → Option Nat
  | [], _ => none
  | k :: ks, n => if k.name = n then some 0 else (keysFind ks n).map (· + 1)

/-- Embedding of `keys[idx].name = tgt`: write the name of the key block at an index. -/
def setKeyName : List KeyBlock → Nat → String → List KeyBlock
  | [], _, _ => []
  | k :: ks, 0, tgt => { k with name := tgt } :: ks
  | k :: ks, i + 1, tgt => k :: setKeyName ks i tgt

/-- Embedding of `scene.objects.find(name)`: index of the first object with the given
name; `none` embeds Blender's `-1`. -/
def sceneFind : Scene → String → Option Nat
  | [], _ => none
  | o :: os, n => if o.name = n then some 0 else (sceneFind os n).map (· + 1)

/-- Embedding of `objects[idx].name = tgt`: write the name of the object at an index. -/
def setObjName : Scene → Nat → String → Scene
  | [], _, _ => []
  | o :: os, 0, tgt => { o with name := tgt } :: os
  | o :: os, i + 1, tgt => o :: setObjName os i tgt

/-- Replace the shape-key blocks of the object at an index. -/
def setObjKeys : Scene → Nat → List KeyBlock → Scene
  | [], _, _ => []
  | o :: os, 0, ks => { o with shapeKeys := some ks } :: os
  | o :: os, i + 1, ks => o :: setObjKeys os i ks

/-- The log line printed for one shape-key rename (source line 73). -/
def renamedKeyMsg (src tgt : String) : String :=
  "✅ Renamed shape key: " ++ src ++ " -> " ++ tgt

/-- The inner rename loop over the table (source lines 68-73), acting on one
object's key blocks and threading the running counter and the log. -/
def runMap : List (String × String) → List KeyBlock → Nat → List String →
    List KeyBlock × Nat × List String
  | [], keys, c, log => (keys, c, log)
  | m :: ms, keys, c, log =>
    match keysFind keys m.1 with
    | some idx =>
        runMap ms (setKeyName keys idx m.2) (c + 1)
          (log ++ [renamedKeyMsg m.1 m.2])
    | none => runMap ms keys c log

/-- The running state of the shape-key pass: the scene, the counter
`shape_keys_processed`, and the printed lines. -/
structure PassState where
  scene : Scene
  count : Nat
  log : List String
deriving Repr, DecidableEq

/-- Processing of a single visited object (source lines 66-73): when it
carries shape-key data, run the rename loop on its key blocks. -/
def processObj (st : PassState) (i : Nat) : PassState :=
  match st.scene[i]? with
  | none => st
  | some o =>
    match o.shapeKeys with
    | none => st
    | some keys =>
      let r := runMap shapekeyMap keys st.count st.log
      ⟨setObjKeys st.scene i r.1, r.2.1, r.2.2⟩

/-- The shape-key rename pass (source lines 63-73): for every scene object,
traverse it and its descendants, processing every visited object. -/
def renamePass (s : Scene) (fuel : Nat) : PassState :=
  (List.range s.length).foldl
    (fun st r => (traverse st.scene fuel r).foldl processObj st)
    ⟨s, 0, []⟩

/-- A pass that visits each scene object exactly once, in scene order; used
to state the refinement of `renamePass`. -/
def singlePass (s : Scene) : PassState :=
  (List.range s.length).foldl processObj ⟨s, 0, []⟩

/-- The avatar-root rename step (source lines 49-52). -/
def renameAvatarRoot (s : Scene) : Scene :=
  match sceneFind s "AvatarRoot" with
  | some idx => setObjName s idx "Armature"
  | none => s

/-- The name-and-key-visible part of the processing between import and
export: the root rename followed by the shape-key pass (the transform apply
changes neither names nor shape keys). -/
def processScene (s : Scene) (fuel : Nat) : PassState :=
  renamePass (renameAvatarRoot s) fuel

/-- Embedding of `argv.index("--")`: position of the first `"--"`; `none` embeds the
`ValueError` raised when the separator is absent. -/
def findSep : List String → Option Nat
  | [] => none
  | a :: as => if a = "--" then some 0 else (findSep as).map (· + 1)

/-- Outcome of the argument-handling prologue (source lines 6-13). -/
inductive StartOutcome where
  | valueError : StartOutcome
  | usageExit : StartOutcome
  | proceed : String → StartOutcome
deriving Repr, DecidableEq

/-- The argument-handling prologue: slice `argv` after `"--"` (raising
`ValueError` when absent), then either print usage and exit or proceed with
the first remaining argument as the input file. -/
def scriptStart (argvFull : List String) : StartOutcome :=
  match findSep argvFull with
  | none => .valueError
  | some k =>
    match argvFull.drop (k + 1) with
    | [] => .usageExit
    | f :: _ => .proceed f

def usageMsg : String :=
  "Usage: blender --background --python sdk_avatars.py -- <input_file.glb>"

def processingMsg (f : String) : String :=
  "🎭 Processing SDK avatar: " ++ f

def importOkMsg : String := "✅ Successfully imported GLB file"

def importFailMsg (e : String) : String :=
  "❌ Failed to import GLB file: " ++ e

def renamedRootMsg : String := "✅ Renamed AvatarRoot to Armature"

def appliedMsg : String := "✅ Applied transforms to Armature"

def processedMsg (n : Nat) : String :=
  "✅ Processed " ++ toString n ++ " shape keys"

def exportOkMsg : String := "✅ Successfully exported adapted GLB file"

def exportFailMsg (e : String) : String :=
  "❌ Failed to export GLB file: " ++ e

def doneMsg : String := "🎉 SDK avatar adaptation complete!"

/-- The result of a run that terminates by `sys.exit` or by falling off the
end of the script: the exit code and the printed lines, in order. -/
structure RunResult where
  exitCode : Nat
  log : List String
deriving Repr, DecidableEq

/-- The lines printed between a successful import and the export attempt
(source lines 14, 43, 52, 60, 73, 75): the processing banner, the import
success line, the conditional root-rename and transform-apply lines, the
per-key rename lines of the pass, and the processed-count line. -/
def progressLog (input_file : String) (s0 : Scene) (fuel : Nat) :
    List String :=
  let log2 := [processingMsg input_file] ++ [importOkMsg]
  let log3 := if (sceneFind s0 "AvatarRoot").isSome
    then log2 ++ [renamedRootMsg] else log2
  let log4 := if (sceneFind (renameAvatarRoot s0) "Armature").isSome
    then log3 ++ [appliedMsg] else log3
  let st := renamePass (renameAvatarRoot s0) fuel
  log4 ++ st.log ++ [processedMsg st.count]

/-- The whole script, parameterised by the host import and export
operators.  `importF` returns the imported scene or the exception message;
`exportF` returns `none` on success and the exception message on failure.
The result is `none` when the script dies of the uncaught `ValueError`
from `argv.index("--")`. -/
def runScript (argvFull : List String) (importF : String → Except String Scene)
    (exportF : Scene → Option String) (fuel : Nat) : Option RunResult :=
  match scriptStart argvFull with
  | .valueError => none
  | .usageExit => some ⟨1, [usageMsg]⟩
  | .proceed input_file =>
    match importF input_file with
    | .error e => some ⟨1, [processingMsg input_file] ++ [importFailMsg e]⟩
    | .ok s0 =>
      match exportF (renamePass (renameAvatarRoot s0) fuel).scene with
      | some e =>
          some ⟨1, progressLog input_file s0 fuel ++ [exportFailMsg e]⟩
      | none =>
          some ⟨0, progressLog input_file s0 fuel ++ [exportOkMsg, doneMsg]⟩

/-! ## Specification-side functions used to characterise the pass -/

/-- Specification of one key block's rename: look its name up in the table
and take the target of the first matching entry, keeping the payload. -/
def specRename (ms : List (String × String)) (k : KeyBlock) : KeyBlock :=
  match ms.find? (fun p => p.1 == k.name) with
  | some p => ⟨p.2, k.value⟩
  | none => k

/-- Number of table entries that match some key block. -/
def specCount (ms : List (String × String)) (keys : List KeyBlock) : Nat :=
  (ms.filter (fun p => (keysFind keys p.1).isSome)).length

/-- The log lines produced by one object's rename loop. -/
def specLog (ms : List (String × String)) (keys : List KeyBlock) :
    List String :=
  (ms.filter (fun p => (keysFind keys p.1).isSome)).map
    (fun p => renamedKeyMsg p.1 p.2)

/-- Structural form of find-then-set-name on key blocks: rename the first
key block with the given name. -/
def renameFirst : List KeyBlock → String → String → List KeyBlock
  | [], _, _ => []
  | k :: ks, src, tgt =>
    if k.name = src then { k with name := tgt } :: ks
    else k :: renameFirst ks src tgt

/-- Specification of one object after the pass: rename each of its key
blocks by the table. -/
def renameObj (o : ObjData) : ObjData :=
  { o with shapeKeys := o.shapeKeys.map (List.map (specRename shapekeyMap)) }

/-- Number of table entries matched on one object. -/
def objCount (o : ObjData) : Nat :=
  match o.shapeKeys with
  | some keys => specCount shapekeyMap keys
  | none => 0

/-- Value of `objCount` at a scene position, `0` when out of range. -/
def objCountAt (s : Scene) (i : Nat) : Nat :=
  match s[i]? with
  | some o => objCount o
  | none => 0

/-- Each key-block name occurs at most once per table source name.  Blender
maintains this invariant: key-block names are unique within one
`key_blocks` collection. -/
def KeysOk (keys : List KeyBlock) : Bool :=
  shapekeyMap.all (fun p => (keys.map KeyBlock.name).count p.1 ≤ 1)

/-- Scene-wide `KeysOk`: it holds of the shape keys of every object of the scene. -/
def SceneOk (s : Scene) : Bool :=
  s.all (fun o =>
    match o.shapeKeys with
    | some keys => KeysOk keys
    | none => true)

/-- No key block of any object is named after a table source name. -/
def NoSources (s : Scene) : Bool :=
  s.all (fun o =>
    match o.shapeKeys with
    | some keys =>
        keys.all (fun k => shapekeyMap.all (fun p => !(k.name == p.1)))
    | none => true)

/-- Count of the table-matched entries of the objects already processed:
the value of `shape_keys_processed` once every position in `done` has been
visited at least once. -/
def countUpTo (s : Scene) (done : List Nat) : Nat :=
  ∑ i in Finset.range s.length, if i ∈ done then objCountAt s i else 0

/-- The pass invariant: after visiting exactly the positions in `done`, the
scene agrees with the input except that visited objects are renamed, and
the counter is the sum of their match counts. -/
def PassInv (s : Scene) (done : List Nat) (st : PassState) : Prop :=
  st.scene.length = s.length ∧
    (∀ i, st.scene[i]? =
      (s[i]?).map (fun o => if i ∈ done then renameObj o else o)) ∧
    st.count = countUpTo s done

/-! ## Facts about the rename table -/

theorem shapekeyMap_sources_nodup : (shapekeyMap.map Prod.fst).Nodup := by
  decide

theorem shapekeyMap_target_ne_source :
    ∀ p ∈ shapekeyMap, ∀ q ∈ shapekeyMap, p.2 ≠ q.1 := by
  decide

theorem shapekeyMap_find_self :
    ∀ p ∈ shapekeyMap, shapekeyMap.find? (fun q => q.1 == p.1) = some p := by
  decide

/-! ## Key-block level lemmas -/

theorem keysFind_eq_none {keys : List KeyBlock} {n : String} :
    keysFind keys n = none ↔ ∀ k ∈ keys, k.name ≠ n := by
  induction keys with
  | nil => simp [keysFind]
  | cons k ks ih =>
    by_cases h : k.name = n <;> simp [keysFind, h, ih]

theorem keysFind_isSome {keys : List KeyBlock} {n : String} :
    (keysFind keys n).isSome = true ↔ ∃ k ∈ keys, k.name = n := by
  induction keys with
  | nil => simp [keysFind]
  | cons k ks ih =>
    by_cases h : k.name = n <;> simp [keysFind, h, ih]

theorem findSet_eq_renameFirst (keys : List KeyBlock) (src tgt : String) :
    (match keysFind keys src with
     | some i => setKeyName keys i tgt
     | none => keys) = renameFirst keys src tgt := by
  induction keys with
  | nil => rfl
  | cons k ks ih =>
    by_cases h : k.name = src
    · simp [keysFind, h, renameFirst, setKeyName]
    · cases hf : keysFind ks src with
      | none =>
        rw [hf] at ih
        simp [keysFind, h, hf, renameFirst, ← ih]
      | some i =>
        rw [hf] at ih
        simp [keysFind, h, hf, renameFirst, setKeyName, ← ih]

theorem renameFirst_of_not_mem {keys : List KeyBlock} {src : String}
    (tgt : String) (h : ∀ k ∈ keys, k.name ≠ src) :
    renameFirst keys src tgt = keys := by
  induction keys with
  | nil => rfl
  | cons k ks ih =>
    have hk : k.name ≠ src := h k (by simp)
    simp only [renameFirst, if_neg hk]
    exact congrArg _ (ih (fun k hk => h k (by simp [hk])))

theorem keysFind_isSome_renameFirst {keys : List KeyBlock}
    {src tgt n : String} (h1 : n ≠ src) (h2 : n ≠ tgt) :
    (keysFind (renameFirst keys src tgt) n).isSome =
      (keysFind keys n).isSome := by
  induction keys with
  | nil => rfl
  | cons k ks ih =>
    have hsn : src ≠ n := fun h => h1 h.symm
    have htn : tgt ≠ n := fun h => h2 h.symm
    by_cases hk : k.name = src
    · simp [renameFirst, hk, keysFind, hsn, htn, h1, h2]
    · by_cases hn : k.name = n <;>
        simp [renameFirst, hk, keysFind, hn, ih, hsn, htn, h1, h2]

theorem count_name_renameFirst_le (keys : List KeyBlock)
    {src tgt n : String} (h : n ≠ tgt) :
    ((renameFirst keys src tgt).map KeyBlock.name).count n ≤
      (keys.map KeyBlock.name).count n := by
  induction keys with
  | nil => simp [renameFirst]
  | cons k ks ih =>
    by_cases hk : k.name = src
    · have e1 : renameFirst (k :: ks) src tgt = { k with name := tgt } :: ks := by
        simp [renameFirst, hk]
      rw [e1, List.map_cons, List.map_cons]
      have e3 : ({ k with name := tgt } : KeyBlock).name = tgt := rfl
      rw [e3, List.count_cons_of_ne h]
      exact List.count_le_count_cons n k.name (ks.map KeyBlock.name)
    · have e1 : renameFirst (k :: ks) src tgt = k :: renameFirst ks src tgt := by
        simp [renameFirst, hk]
      rw [e1, List.map_cons, List.map_cons]
      by_cases hn : n = k.name
      · rw [hn, List.count_cons_self, List.count_cons_self]
        exact Nat.add_le_add_right (hn ▸ ih) 1
      · rw [List.count_cons_of_ne hn, List.count_cons_of_ne hn]
        exact ih

theorem specRename_cons_ne {m : String × String} {ms : List (String × String)}
    {k : KeyBlock} (h : k.name ≠ m.1) :
    specRename (m :: ms) k = specRename ms k := by
  have hb : (m.1 == k.name) = false :=
    beq_eq_false_iff_ne.mpr (fun hc => h hc.symm)
  simp [specRename, List.find?, hb]

theorem specRename_not_source {ms : List (String × String)} {k : KeyBlock}
    (h : ∀ q ∈ ms, q.1 ≠ k.name) : specRename ms k = k := by
  have : ms.find? (fun p => p.1 == k.name) = none :=
    List.find?_eq_none.mpr (fun q hq => by simp [h q hq])
  simp [specRename, this]

theorem map_specRename_notmem {m : String × String}
    {ms : List (String × String)} {keys : List KeyBlock}
    (h : ∀ k ∈ keys, k.name ≠ m.1) :
    keys.map (specRename (m :: ms)) = keys.map (specRename ms) := by
  induction keys with
  | nil => rfl
  | cons k ks ih =>
    simp only [List.map_cons]
    rw [specRename_cons_ne (h k (by simp)),
      ih (fun k hk => h k (by simp [hk]))]

theorem map_specRename_cons {m : String × String}
    {ms : List (String × String)} {keys : List KeyBlock}
    (hcount : (keys.map KeyBlock.name).count m.1 ≤ 1)
    (hts : ∀ q ∈ ms, q.1 ≠ m.2) :
    keys.map (specRename (m :: ms)) =
      (renameFirst keys m.1 m.2).map (specRename ms) := by
  induction keys with
  | nil => rfl
  | cons k ks ih =>
    obtain ⟨kn, kv⟩ := k
    by_cases hk : kn = m.1
    · have hhead : specRename (m :: ms) ⟨kn, kv⟩ = ⟨m.2, kv⟩ := by
        have hb : (m.1 == (KeyBlock.mk kn kv).name) = true := by simp [hk]
        simp [specRename, List.find?, hb]
      have htail : ∀ k' ∈ ks, k'.name ≠ m.1 := by
        intro k' hk' hEq
        have h1 : m.1 ∈ ks.map KeyBlock.name :=
          List.mem_map.mpr ⟨k', hk', hEq⟩
        have h2 : 0 < (ks.map KeyBlock.name).count m.1 :=
          List.count_pos_iff.mpr h1
        have h3 : (List.map KeyBlock.name (⟨kn, kv⟩ :: ks)).count m.1 =
            (ks.map KeyBlock.name).count m.1 + 1 := by
          simp [List.count_cons, hk]
        omega
      have hright : specRename ms ⟨m.2, kv⟩ = ⟨m.2, kv⟩ :=
        specRename_not_source (fun q hq => hts q hq)
      show specRename (m :: ms) ⟨kn, kv⟩ :: ks.map (specRename (m :: ms)) =
        (renameFirst (⟨kn, kv⟩ :: ks) m.1 m.2).map (specRename ms)
      rw [show renameFirst (⟨kn, kv⟩ :: ks) m.1 m.2 = ⟨m.2, kv⟩ :: ks from by
        simp [renameFirst, hk]]
      rw [List.map_cons, hhead, hright, map_specRename_notmem htail]
    · have hc' : (List.map KeyBlock.name ks).count m.1 ≤ 1 := by
        simp only [List.map_cons, List.count_cons] at hcount
        omega
      show specRename (m :: ms) ⟨kn, kv⟩ :: ks.map (specRename (m :: ms)) =
        (renameFirst (⟨kn, kv⟩ :: ks) m.1 m.2).map (specRename ms)
      rw [show renameFirst (⟨kn, kv⟩ :: ks) m.1 m.2 =
          ⟨kn, kv⟩ :: renameFirst ks m.1 m.2 from by simp [renameFirst, hk]]
      rw [List.map_cons, specRename_cons_ne hk, ih hc']

theorem specCount_cons_found {m : String × String}
    {ms : List (String × String)} {keys : List KeyBlock} {i : Nat}
    (h : keysFind keys m.1 = some i) :
    specCount (m :: ms) keys = specCount ms keys + 1 := by
  simp [specCount, List.filter, h]

theorem specCount_cons_notfound {m : String × String}
    {ms : List (String × String)} {keys : List KeyBlock}
    (h : keysFind keys m.1 = none) :
    specCount (m :: ms) keys = specCount ms keys := by
  simp [specCount, List.filter, h]

theorem specLog_cons_found {m : String × String}
    {ms : List (String × String)} {keys : List KeyBlock} {i : Nat}
    (h : keysFind keys m.1 = some i) :
    specLog (m :: ms) keys = renamedKeyMsg m.1 m.2 :: specLog ms keys := by
  simp [specLog, List.filter, h]

theorem specLog_cons_notfound {m : String × String}
    {ms : List (String × String)} {keys : List KeyBlock}
    (h : keysFind keys m.1 = none) :
    specLog (m :: ms) keys = specLog ms keys := by
  simp [specLog, List.filter, h]

theorem filter_found_renameFirst {ms : List (String × String)}
    {keys : List KeyBlock} {src tgt : String}
    (h : ∀ q ∈ ms, q.1 ≠ src ∧ q.1 ≠ tgt) :
    ms.filter (fun q => (keysFind (renameFirst keys src tgt) q.1).isSome) =
      ms.filter (fun q => (keysFind keys q.1).isSome) := by
  induction ms with
  | nil => rfl
  | cons q ms ih =>
    have hq := h q (by simp)
    have hrw := @keysFind_isSome_renameFirst keys src tgt q.1 hq.1 hq.2
    simp only [List.filter, hrw, ih (fun q hq => h q (by simp [hq]))]

theorem specCount_renameFirst {ms : List (String × String)}
    {keys : List KeyBlock} {src tgt : String}
    (h : ∀ q ∈ ms, q.1 ≠ src ∧ q.1 ≠ tgt) :
    specCount ms (renameFirst keys src tgt) = specCount ms keys := by
  simp [specCount, filter_found_renameFirst h]

theorem specLog_renameFirst {ms : List (String × String)}
    {keys : List KeyBlock} {src tgt : String}
    (h : ∀ q ∈ ms, q.1 ≠ src ∧ q.1 ≠ tgt) :
    specLog ms (renameFirst keys src tgt) = specLog ms keys := by
  simp [specLog, filter_found_renameFirst h]

/-- The inner rename loop, characterised: with at most one key block per
source name, distinct source names, and no target occurring as a source,
the loop renames each key block by a single table lookup on its original
name, counts the matched entries, and logs one line per matched entry. -/
theorem runMap_spec :
    ∀ (ms : List (String × String)) (keys : List KeyBlock) (c : Nat)
      (log : List String),
      (∀ p ∈ ms, (keys.map KeyBlock.name).count p.1 ≤ 1) →
      (ms.map Prod.fst).Nodup →
      (∀ p ∈ ms, ∀ q ∈ ms, p.2 ≠ q.1) →
      runMap ms keys c log =
        (keys.map (specRename ms), c + specCount ms keys,
          log ++ specLog ms keys) := by
  intro ms
  induction ms with
  | nil =>
    intro keys c log _ _ _
    have hmap : ∀ keys' : List KeyBlock, keys'.map (specRename []) = keys' := by
      intro keys'
      induction keys' with
      | nil => rfl
      | cons k ks ihk =>
        rw [List.map_cons, ihk]
        rfl
    simp [runMap, specCount, specLog, hmap]
  | cons m ms ih =>
    intro keys c log hcount hnd hts
    have hnd1 : (m.1 :: ms.map Prod.fst).Nodup := by simpa using hnd
    have hndtail : (ms.map Prod.fst).Nodup := hnd1.of_cons
    cases hf : keysFind keys m.1 with
    | none =>
      have hnone : ∀ k ∈ keys, k.name ≠ m.1 := keysFind_eq_none.mp hf
      rw [show runMap (m :: ms) keys c log = runMap ms keys c log from by
        simp [runMap, hf]]
      rw [ih keys c log (fun p hp => hcount p (by simp [hp])) hndtail
        (fun p hp q hq => hts p (by simp [hp]) q (by simp [hq]))]
      rw [map_specRename_notmem hnone, specCount_cons_notfound hf,
        specLog_cons_notfound hf]
    | some i =>
      have hset : setKeyName keys i m.2 = renameFirst keys m.1 m.2 := by
        have h := findSet_eq_renameFirst keys m.1 m.2
        rw [hf] at h
        exact h
      have hstep : runMap (m :: ms) keys c log =
          runMap ms (renameFirst keys m.1 m.2) (c + 1)
            (log ++ [renamedKeyMsg m.1 m.2]) := by
        simp [runMap, hf, hset]
      have hm2 : ∀ q ∈ ms, q.1 ≠ m.2 := by
        intro q hq hEq
        exact hts m (by simp) q (by simp [hq]) hEq.symm
      have hm1 : ∀ q ∈ ms, q.1 ≠ m.1 := by
        intro q hq hEq
        have hmem : m.1 ∈ ms.map Prod.fst := List.mem_map.mpr ⟨q, hq, hEq⟩
        exact (List.nodup_cons.mp hnd1).1 hmem
      have hboth : ∀ q ∈ ms, q.1 ≠ m.1 ∧ q.1 ≠ m.2 :=
        fun q hq => ⟨hm1 q hq, hm2 q hq⟩
      have hcount' : ∀ p ∈ ms,
          ((renameFirst keys m.1 m.2).map KeyBlock.name).count p.1 ≤ 1 := by
        intro p hp
        exact le_trans
          (count_name_renameFirst_le keys (fun h => hm2 p hp h))
          (hcount p (by simp [hp]))
      rw [hstep, ih _ _ _ hcount' hndtail
        (fun p hp q hq => hts p (by simp [hp]) q (by simp [hq]))]
      rw [← map_specRename_cons (hcount m (by simp)) hm2,
        specCount_renameFirst hboth, specLog_renameFirst hboth,
        specCount_cons_found hf, specLog_cons_found hf]
      simp only [Prod.mk.injEq, true_and]
      refine ⟨by omega, by simp⟩

/-! ## The table instance of the inner-loop characterisation -/

theorem KeysOk_count {keys : List KeyBlock} (h : KeysOk keys = true) :
    ∀ p ∈ shapekeyMap, (keys.map KeyBlock.name).count p.1 ≤ 1 := by
  intro p hp
  exact of_decide_eq_true (List.all_eq_true.mp h p hp)

theorem runMap_shapekeyMap {keys : List KeyBlock} (c : Nat) (log : List String)
    (h : KeysOk keys = true) :
    runMap shapekeyMap keys c log =
      (keys.map (specRename shapekeyMap), c + specCount shapekeyMap keys,
        log ++ specLog shapekeyMap keys) :=
  runMap_spec shapekeyMap keys c log (KeysOk_count h)
    shapekeyMap_sources_nodup shapekeyMap_target_ne_source

theorem mapped_no_sources (keys : List KeyBlock) :
    ∀ p ∈ shapekeyMap,
      keysFind (keys.map (specRename shapekeyMap)) p.1 = none := by
  intro p hp
  refine keysFind_eq_none.mpr ?_
  intro k' hk'
  rw [List.mem_map] at hk'
  obtain ⟨k, hk, rfl⟩ := hk'
  unfold specRename
  cases hfind : shapekeyMap.find? (fun q => q.1 == k.name) with
  | some q =>
    have hqmem : q ∈ shapekeyMap := List.mem_of_find?_eq_some hfind
    simpa using shapekeyMap_target_ne_source q hqmem p hp
  | none =>
    have hall := List.find?_eq_none.mp hfind p hp
    simp only [beq_iff_eq] at hall
    simpa using fun hh => hall hh.symm

theorem runMap_nomatch : ∀ (ms : List (String × String)) (keys : List KeyBlock)
    (c : Nat) (log : List String),
    (∀ p ∈ ms, keysFind keys p.1 = none) →
    runMap ms keys c log = (keys, c, log)
  | [], _, _, _, _ => rfl
  | m :: ms, keys, c, log, h => by
    rw [show runMap (m :: ms) keys c log = runMap ms keys c log from by
      simp [runMap, h m (by simp)]]
    exact runMap_nomatch ms keys c log (fun p hp => h p (by simp [hp]))

/-! ## Scene-update lemmas -/

theorem length_setObjKeys : ∀ (s : Scene) (i : Nat) (ks : List KeyBlock),
    (setObjKeys s i ks).length = s.length
  | [], _, _ => rfl
  | _ :: _, 0, _ => rfl
  | o :: os, i + 1, ks => by
    simp [setObjKeys, length_setObjKeys os i ks]

theorem getElem?_setObjKeys_self : ∀ (s : Scene) (i : Nat)
    (ks : List KeyBlock) (o : ObjData), s[i]? = some o →
    (setObjKeys s i ks)[i]? = some { o with shapeKeys := some ks }
  | [], i, ks, o, h => by simp at h
  | o' :: os, 0, ks, o, h => by
    have h1 : o' = o := by simpa using h
    subst h1
    simp [setObjKeys]
  | o' :: os, i + 1, ks, o, h => by
    have h1 : os[i]? = some o := by simpa using h
    simpa [setObjKeys] using getElem?_setObjKeys_self os i ks o h1

theorem getElem?_setObjKeys_ne : ∀ (s : Scene) (i j : Nat)
    (ks : List KeyBlock), j ≠ i → (setObjKeys s i ks)[j]? = s[j]?
  | [], _, _, _, _ => by simp [setObjKeys]
  | o :: os, 0, 0, ks, h => absurd rfl h
  | o :: os, 0, j + 1, ks, h => by simp [setObjKeys]
  | o :: os, i + 1, 0, ks, h => by simp [setObjKeys]
  | o :: os, i + 1, j + 1, ks, h => by
    simpa [setObjKeys] using
      getElem?_setObjKeys_ne os i j ks (fun hh => h (by omega))

theorem setObjKeys_self : ∀ (s : Scene) (i : Nat) (ks : List KeyBlock)
    (o : ObjData), s[i]? = some o → o.shapeKeys = some ks →
    setObjKeys s i ks = s
  | [], _, _, _, h, _ => by simp at h
  | o' :: os, 0, ks, o, h, hks => by
    have h1 : o' = o := by simpa using h
    subst h1
    obtain ⟨nm, sk, ch⟩ := o'
    simp only [ObjData.shapeKeys] at hks
    subst hks
    rfl
  | o' :: os, i + 1, ks, o, h, hks => by
    have h1 : os[i]? = some o := by simpa using h
    simp [setObjKeys, setObjKeys_self os i ks o h1 hks]

theorem self_mem_traverse (s : Scene) (fuel i : Nat) :
    i ∈ traverse s fuel i := by
  cases fuel <;> simp [traverse]

theorem renameObj_none {o : ObjData} (h : o.shapeKeys = none) :
    renameObj o = o := by
  obtain ⟨nm, sk, ch⟩ := o
  simp only [ObjData.shapeKeys] at h
  subst h
  rfl

theorem renameObj_some {o : ObjData} {keys : List KeyBlock}
    (h : o.shapeKeys = some keys) :
    renameObj o =
      { o with shapeKeys := some (keys.map (specRename shapekeyMap)) } := by
  simp [renameObj, h]

theorem objCount_none {o : ObjData} (h : o.shapeKeys = none) :
    objCount o = 0 := by
  simp [objCount, h]

theorem objCount_some {o : ObjData} {keys : List KeyBlock}
    (h : o.shapeKeys = some keys) :
    objCount o = specCount shapekeyMap keys := by
  simp [objCount, h]

/-! ## Counter bookkeeping -/

theorem countUpTo_congr {s : Scene} {d1 d2 : List Nat}
    (h : ∀ i < s.length, (i ∈ d1 ↔ i ∈ d2)) :
    countUpTo s d1 = countUpTo s d2 := by
  unfold countUpTo
  refine Finset.sum_congr rfl ?_
  intro i hi
  rw [Finset.mem_range] at hi
  rw [if_congr (h i hi) rfl rfl]

theorem countUpTo_nil (s : Scene) : countUpTo s [] = 0 := by
  simp [countUpTo]

theorem countUpTo_snoc_not_mem {s : Scene} {done : List Nat} {j : Nat}
    (h : j ∉ done) :
    countUpTo s (done ++ [j]) =
      countUpTo s done + if j < s.length then objCountAt s j else 0 := by
  unfold countUpTo
  have step : ∀ i ∈ Finset.range s.length,
      (if i ∈ done ++ [j] then objCountAt s i else 0) =
        (if i ∈ done then objCountAt s i else 0) +
          (if i = j then objCountAt s i else 0) := by
    intro i _
    by_cases h1 : i ∈ done
    · have h2 : i ≠ j := fun hh => h (hh ▸ h1)
      simp [List.mem_append, h1, h2]
    · by_cases h2 : i = j <;> simp [List.mem_append, h1, h2, h]
  rw [Finset.sum_congr rfl step, Finset.sum_add_distrib]
  congr 1
  rw [Finset.sum_ite_eq' (Finset.range s.length) j (fun i => objCountAt s i)]
  simp [Finset.mem_range]

theorem countUpTo_snoc_mem {s : Scene} {done : List Nat} {j : Nat}
    (h : j ∈ done) :
    countUpTo s (done ++ [j]) = countUpTo s done := by
  refine (countUpTo_congr ?_).symm
  intro i _
  constructor
  · intro hi
    simp [List.mem_append, hi]
  · intro hi
    rcases (List.mem_append.mp hi) with hi | hi
    · exact hi
    · simpa using (List.mem_singleton.mp hi) ▸ h

theorem sum_objCountAt : ∀ s : Scene,
    (∑ i in Finset.range s.length, objCountAt s i) = (s.map objCount).sum
  | [] => by simp
  | o :: os => by
    rw [List.length_cons, Finset.sum_range_succ']
    have hstep : ∀ i ∈ Finset.range os.length,
        objCountAt (o :: os) (i + 1) = objCountAt os i := by
      intro i _
      simp [objCountAt]
    rw [Finset.sum_congr rfl hstep, sum_objCountAt os]
    have h0 : objCountAt (o :: os) 0 = objCount o := by simp [objCountAt]
    rw [h0, List.map_cons, List.sum_cons]
    omega

theorem countUpTo_full {s : Scene} {done : List Nat}
    (h : ∀ i < s.length, i ∈ done) :
    countUpTo s done = (s.map objCount).sum := by
  rw [← sum_objCountAt s]
  unfold countUpTo
  refine Finset.sum_congr rfl ?_
  intro i hi
  rw [Finset.mem_range] at hi
  simp [h i hi]

/-! ## The pass invariant -/

theorem SceneOk_keys {s : Scene} (h : SceneOk s = true) {o : ObjData}
    (ho : o ∈ s) {keys : List KeyBlock} (hk : o.shapeKeys = some keys) :
    KeysOk keys = true := by
  have h1 := List.all_eq_true.mp h o ho
  rw [hk] at h1
  exact h1

theorem processObj_oob {st : PassState} {j : Nat}
    (h : st.scene[j]? = none) : processObj st j = st := by
  unfold processObj
  rw [h]

theorem processObj_noKeys {st : PassState} {j : Nat} {o : ObjData}
    (h : st.scene[j]? = some o) (h2 : o.shapeKeys = none) :
    processObj st j = st := by
  unfold processObj
  rw [h]
  simp [h2]

theorem processObj_run {st : PassState} {j : Nat} {o : ObjData}
    {keys : List KeyBlock} (h : st.scene[j]? = some o)
    (h2 : o.shapeKeys = some keys) :
    processObj st j =
      ⟨setObjKeys st.scene j (runMap shapekeyMap keys st.count st.log).1,
        (runMap shapekeyMap keys st.count st.log).2.1,
        (runMap shapekeyMap keys st.count st.log).2.2⟩ := by
  unfold processObj
  rw [h]
  simp [h2]

theorem processObj_inv {s : Scene} (hs : SceneOk s = true) {done : List Nat}
    {st : PassState} (hinv : PassInv s done st) (j : Nat) :
    PassInv s (done ++ [j]) (processObj st j) := by
  obtain ⟨hlen, hget, hcnt⟩ := hinv
  have hmem : ∀ i : Nat, i ∈ done ++ [j] ↔ (i ∈ done ∨ i = j) := by
    intro i
    simp [List.mem_append]
  cases hj : s[j]? with
  | none =>
    have hjlen : s.length ≤ j := List.getElem?_eq_none_iff.mp hj
    have hstj : st.scene[j]? = none := by
      rw [hget j, hj]
      rfl
    rw [processObj_oob hstj]
    refine ⟨hlen, ?_, ?_⟩
    · intro i
      rw [hget i]
      cases hi : s[i]? with
      | none => simp
      | some o =>
        have hilt : i < s.length := by
          by_contra hge
          push_neg at hge
          rw [List.getElem?_eq_none hge] at hi
          cases hi
        have hne : i ≠ j := by omega
        simp [hmem, hne]
    · by_cases hjd : j ∈ done
      · rw [hcnt, countUpTo_snoc_mem hjd]
      · rw [hcnt, countUpTo_snoc_not_mem hjd]
        have hnl : ¬(j < s.length) := by omega
        simp [hnl]
  | some o =>
    have hjlt : j < s.length := by
      by_contra hge
      push_neg at hge
      rw [List.getElem?_eq_none hge] at hj
      cases hj
    by_cases hjd : j ∈ done
    · -- already visited: the object carries only renamed keys, nothing happens
      have hstj : st.scene[j]? = some (renameObj o) := by
        rw [hget j, hj]
        simp [hjd]
      have hcongr : ∀ i : Nat, (i ∈ done ++ [j]) ↔ i ∈ done := by
        intro i
        rw [hmem]
        constructor
        · rintro (hi | rfl)
          · exact hi
          · exact hjd
        · exact Or.inl
      have hid : processObj st j = st := by
        cases ho : o.shapeKeys with
        | none => exact processObj_noKeys hstj (by rw [renameObj_none ho, ho])
        | some keys =>
          have hsk2 : (renameObj o).shapeKeys =
              some (keys.map (specRename shapekeyMap)) := by
            rw [renameObj_some ho]
          have hid1 := processObj_run hstj hsk2
          rw [runMap_nomatch shapekeyMap _ st.count st.log
            (fun p hp => mapped_no_sources keys p hp)] at hid1
          have hset := setObjKeys_self st.scene j _ (renameObj o) hstj hsk2
          rw [hset] at hid1
          exact hid1
      rw [hid]
      refine ⟨hlen, ?_, ?_⟩
      · intro i
        rw [hget i]
        cases s[i]? with
        | none => simp
        | some o' => simp [hcongr]
      · rw [hcnt, countUpTo_snoc_mem hjd]
    · -- first visit: the object is still in its original state
      have hstj : st.scene[j]? = some o := by
        rw [hget j, hj]
        simp [hjd]
      cases ho : o.shapeKeys with
      | none =>
        rw [processObj_noKeys hstj ho]
        refine ⟨hlen, ?_, ?_⟩
        · intro i
          rw [hget i]
          by_cases hij : i = j
          · subst hij
            rw [hj]
            simp [hmem, hjd, renameObj_none ho]
          · cases s[i]? with
            | none => simp
            | some o' => simp [hmem, hij]
        · rw [hcnt, countUpTo_snoc_not_mem hjd]
          have hc0 : objCountAt s j = 0 := by
            simp [objCountAt, hj, objCount_none ho]
          rw [hc0]
          simp
      | some keys =>
        have hkok : KeysOk keys = true :=
          SceneOk_keys hs (List.getElem?_mem hj) ho
        have hrun := runMap_shapekeyMap st.count st.log hkok
        have hstep := processObj_run hstj ho
        rw [hrun] at hstep
        rw [hstep]
        refine ⟨?_, ?_, ?_⟩
        · show (setObjKeys st.scene j
            (keys.map (specRename shapekeyMap))).length = s.length
          rw [length_setObjKeys, hlen]
        · intro i
          show (setObjKeys st.scene j (keys.map (specRename shapekeyMap)))[i]? =
            (s[i]?).map (fun o => if i ∈ done ++ [j] then renameObj o else o)
          by_cases hij : i = j
          · subst hij
            rw [getElem?_setObjKeys_self st.scene i
              (keys.map (specRename shapekeyMap)) o hstj, hj]
            simp [hmem, renameObj_some ho]
          · rw [getElem?_setObjKeys_ne st.scene j i _ hij, hget i]
            cases s[i]? with
            | none => simp
            | some o' => simp [hmem, hij]
        · show st.count + specCount shapekeyMap keys =
            countUpTo s (done ++ [j])
          rw [hcnt, countUpTo_snoc_not_mem hjd]
          have hc : objCountAt s j = specCount shapekeyMap keys := by
            simp [objCountAt, hj, objCount_some ho]
          rw [hc]
          simp [hjlt]

theorem processSeq_inv {s : Scene} (hs : SceneOk s = true) :
    ∀ (is : List Nat) (done : List Nat) (st : PassState),
      PassInv s done st →
      PassInv s (done ++ is) (is.foldl processObj st)
  | [], done, st, hinv => by simpa using hinv
  | j :: is, done, st, hinv => by
    have h1 := processObj_inv hs hinv j
    have h2 := processSeq_inv hs is (done ++ [j]) (processObj st j) h1
    simpa using h2

theorem outerFold_inv {s : Scene} (hs : SceneOk s = true) (fuel : Nat) :
    ∀ (rs : List Nat) (done : List Nat) (st : PassState),
      PassInv s done st →
      ∃ ext, PassInv s (done ++ ext)
          (rs.foldl
            (fun st r => (traverse st.scene fuel r).foldl processObj st) st) ∧
        ∀ r ∈ rs, r ∈ done ++ ext
  | [], done, st, hinv => ⟨[], by simpa using hinv, by simp⟩
  | r :: rs, done, st, hinv => by
    have h1 := processSeq_inv hs (traverse st.scene fuel r) done st hinv
    obtain ⟨ext2, hinv2, hmem2⟩ :=
      outerFold_inv hs fuel rs (done ++ traverse st.scene fuel r)
        ((traverse st.scene fuel r).foldl processObj st) h1
    refine ⟨traverse st.scene fuel r ++ ext2, ?_, ?_⟩
    · simpa [List.append_assoc] using hinv2
    · intro r' hr'
      rcases List.mem_cons.mp hr' with hr' | hr'
      · rw [hr']
        exact List.mem_append.mpr (Or.inr (List.mem_append.mpr
          (Or.inl (self_mem_traverse st.scene fuel r))))
      · simpa [List.append_assoc] using hmem2 r' hr'

theorem scene_ext : ∀ (l1 l2 : Scene), (∀ i : Nat, l1[i]? = l2[i]?) → l1 = l2
  | [], [], _ => rfl
  | [], b :: l2, h => by have h0 := h 0; simp at h0
  | a :: l1, [], h => by have h0 := h 0; simp at h0
  | a :: l1, b :: l2, h => by
    have h0 := h 0
    simp at h0
    rw [h0, scene_ext l1 l2 (fun i => by simpa using h (i + 1))]

/-- Master characterisation of the shape-key rename pass: for any fuel, the
final scene renames every object's key blocks by the table, and the final
counter is the total number of matched table entries. -/
theorem renamePass_spec {s : Scene} (fuel : Nat) (hs : SceneOk s = true) :
    (renamePass s fuel).scene = s.map renameObj ∧
      (renamePass s fuel).count = (s.map objCount).sum := by
  have hinv0 : PassInv s [] (⟨s, 0, []⟩ : PassState) := by
    refine ⟨rfl, ?_, ?_⟩
    · intro i
      show s[i]? = _
      cases s[i]? <;> simp
    · show 0 = countUpTo s []
      rw [countUpTo_nil]
  obtain ⟨ext, hinv, hmemext⟩ :=
    outerFold_inv hs fuel (List.range s.length) [] ⟨s, 0, []⟩ hinv0
  obtain ⟨hlen, hget, hcnt⟩ := hinv
  have hall : ∀ i < s.length, i ∈ [] ++ ext := by
    intro i hi
    exact hmemext i (List.mem_range.mpr hi)
  constructor
  · refine scene_ext _ _ ?_
    intro i
    have hgi := hget i
    rw [show ((List.range s.length).foldl
      (fun st r => (traverse st.scene fuel r).foldl processObj st)
      ⟨s, 0, []⟩ : PassState) = renamePass s fuel from rfl] at hgi
    rw [hgi, List.getElem?_map]
    cases hi : s[i]? with
    | none => rfl
    | some o =>
      have hilt : i < s.length := by
        by_contra hge
        push_neg at hge
        rw [List.getElem?_eq_none hge] at hi
        cases hi
      have hie : i ∈ ext := by simpa using hall i hilt
      simp [hie]
  · have hci := hcnt
    rw [show ((List.range s.length).foldl
      (fun st r => (traverse st.scene fuel r).foldl processObj st)
      ⟨s, 0, []⟩ : PassState) = renamePass s fuel from rfl] at hci
    rw [hci, countUpTo_full hall]

/-- The single-visit pass has the same characterisation. -/
theorem singlePass_spec {s : Scene} (hs : SceneOk s = true) :
    (singlePass s).scene = s.map renameObj ∧
      (singlePass s).count = (s.map objCount).sum := by
  have hinv0 : PassInv s [] (⟨s, 0, []⟩ : PassState) := by
    refine ⟨rfl, ?_, ?_⟩
    · intro i
      show s[i]? = _
      cases s[i]? <;> simp
    · show 0 = countUpTo s []
      rw [countUpTo_nil]
  have hinv := processSeq_inv hs (List.range s.length) [] ⟨s, 0, []⟩ hinv0
  obtain ⟨hlen, hget, hcnt⟩ := hinv
  have hall : ∀ i < s.length, i ∈ [] ++ List.range s.length := by
    intro i hi
    simpa using List.mem_range.mpr hi
  constructor
  · refine scene_ext _ _ ?_
    intro i
    have hgi := hget i
    rw [show ((List.range s.length).foldl processObj ⟨s, 0, []⟩ :
      PassState) = singlePass s from rfl] at hgi
    rw [hgi, List.getElem?_map]
    cases hi : s[i]? with
    | none => rfl
    | some o =>
      have hilt : i < s.length := by
        by_contra hge
        push_neg at hge
        rw [List.getElem?_eq_none hge] at hi
        cases hi
      simp [hilt]
  · have hci := hcnt
    rw [show ((List.range s.length).foldl processObj ⟨s, 0, []⟩ :
      PassState) = singlePass s from rfl] at hci
    rw [hci, countUpTo_full hall]

/-! ## A pass over a scene with no matching shape-key names is the
identity -/

theorem NoSources_spec {s : Scene} (h : NoSources s = true) :
    ∀ o ∈ s, ∀ keys, o.shapeKeys = some keys →
      ∀ p ∈ shapekeyMap, keysFind keys p.1 = none := by
  intro o ho keys hk p hp
  have h1 := List.all_eq_true.mp h o ho
  have h1x : (match o.shapeKeys with
      | some keys =>
          keys.all (fun k => shapekeyMap.all (fun p => !(k.name == p.1)))
      | none => true) = true := h1
  rw [hk] at h1x
  refine keysFind_eq_none.mpr ?_
  intro k hkk
  have h2 := List.all_eq_true.mp h1x k hkk
  have h3 := List.all_eq_true.mp h2 p hp
  simpa using h3

theorem processObj_id {st : PassState} (j : Nat)
    (h : ∀ o ∈ st.scene, ∀ keys, o.shapeKeys = some keys →
      ∀ p ∈ shapekeyMap, keysFind keys p.1 = none) :
    processObj st j = st := by
  cases hj : st.scene[j]? with
  | none => exact processObj_oob hj
  | some o =>
    cases ho : o.shapeKeys with
    | none => exact processObj_noKeys hj ho
    | some keys =>
      have h2 := processObj_run hj ho
      rw [runMap_nomatch shapekeyMap keys st.count st.log
        (h o (List.getElem?_mem hj) keys ho)] at h2
      rw [setObjKeys_self st.scene j keys o hj ho] at h2
      exact h2

theorem processSeq_id : ∀ (is : List Nat) (st : PassState),
    (∀ o ∈ st.scene, ∀ keys, o.shapeKeys = some keys →
      ∀ p ∈ shapekeyMap, keysFind keys p.1 = none) →
    is.foldl processObj st = st
  | [], _, _ => rfl
  | j :: is, st, h => by
    rw [List.foldl_cons, processObj_id j h]
    exact processSeq_id is st h

theorem renamePass_id {s : Scene} (fuel : Nat)
    (h : ∀ o ∈ s, ∀ keys, o.shapeKeys = some keys →
      ∀ p ∈ shapekeyMap, keysFind keys p.1 = none) :
    renamePass s fuel = ⟨s, 0, []⟩ := by
  have hrs : ∀ rs : List Nat,
      rs.foldl (fun st r => (traverse st.scene fuel r).foldl processObj st)
        (⟨s, 0, []⟩ : PassState) = ⟨s, 0, []⟩ := by
    intro rs
    induction rs with
    | nil => rfl
    | cons r rs ih =>
      rw [List.foldl_cons,
        processSeq_id (traverse (⟨s, 0, []⟩ : PassState).scene fuel r)
          ⟨s, 0, []⟩ h]
      exact ih
  exact hrs (List.range s.length)

/-! ## The avatar-root rename step -/

theorem sceneFind_eq_none {s : Scene} {n : String} :
    sceneFind s n = none ↔ ∀ o ∈ s, o.name ≠ n := by
  induction s with
  | nil => simp [sceneFind]
  | cons o os ih =>
    by_cases h : o.name = n <;> simp [sceneFind, h, ih]

theorem sceneFind_isSome {s : Scene} {n : String} :
    (sceneFind s n).isSome = true ↔ ∃ o ∈ s, o.name = n := by
  induction s with
  | nil => simp [sceneFind]
  | cons o os ih =>
    by_cases h : o.name = n <;> simp [sceneFind, h, ih]

theorem sceneFind_some : ∀ {s : Scene} {n : String} {i : Nat},
    sceneFind s n = some i → ∃ o, s[i]? = some o ∧ o.name = n := by
  intro s
  induction s with
  | nil => intro n i h; simp [sceneFind] at h
  | cons o os ih =>
    intro n i h
    by_cases hn : o.name = n
    · have h0 : i = 0 := by
        simp [sceneFind, hn] at h
        omega
      subst h0
      exact ⟨o, by simp, hn⟩
    · simp only [sceneFind, if_neg hn] at h
      cases hf : sceneFind os n with
      | none =>
        rw [hf] at h
        simp at h
      | some j =>
        rw [hf] at h
        have hji : j + 1 = i := by simpa using h
        subst hji
        obtain ⟨o2, h2, h3⟩ := ih hf
        exact ⟨o2, by simpa using h2, h3⟩

theorem length_setObjName : ∀ (s : Scene) (i : Nat) (t : String),
    (setObjName s i t).length = s.length
  | [], _, _ => rfl
  | _ :: _, 0, _ => rfl
  | o :: os, i + 1, t => by
    simp [setObjName, length_setObjName os i t]

theorem getElem?_setObjName_self : ∀ (s : Scene) (i : Nat) (t : String)
    (o : ObjData), s[i]? = some o →
    (setObjName s i t)[i]? = some { o with name := t }
  | [], i, t, o, h => by simp at h
  | o' :: os, 0, t, o, h => by
    have h1 : o' = o := by simpa using h
    subst h1
    simp [setObjName]
  | o' :: os, i + 1, t, o, h => by
    have h1 : os[i]? = some o := by simpa using h
    simpa [setObjName] using getElem?_setObjName_self os i t o h1

theorem getElem?_setObjName_ne : ∀ (s : Scene) (i j : Nat) (t : String),
    j ≠ i → (setObjName s i t)[j]? = s[j]?
  | [], _, _, _, _ => by simp [setObjName]
  | o :: os, 0, 0, t, h => absurd rfl h
  | o :: os, 0, j + 1, t, h => by simp [setObjName]
  | o :: os, i + 1, 0, t, h => by simp [setObjName]
  | o :: os, i + 1, j + 1, t, h => by
    simpa [setObjName] using
      getElem?_setObjName_ne os i j t (fun hh => h (by omega))

theorem renameAvatarRoot_cons (o : ObjData) (os : Scene) :
    renameAvatarRoot (o :: os) =
      if o.name = "AvatarRoot" then { o with name := "Armature" } :: os
      else o :: renameAvatarRoot os := by
  unfold renameAvatarRoot
  by_cases h : o.name = "AvatarRoot"
  · simp [sceneFind, h, setObjName]
  · simp only [sceneFind, if_neg h]
    cases hf : sceneFind os "AvatarRoot" with
    | none => simp [hf, h]
    | some i => simp [hf, h, setObjName]

theorem renameAvatarRoot_no_root : ∀ (s : Scene),
    (s.map ObjData.name).Nodup →
    ∀ o ∈ renameAvatarRoot s, o.name ≠ "AvatarRoot"
  | [], _, o, ho => by simp [renameAvatarRoot, sceneFind] at ho
  | o' :: os, hn, o, ho => by
    have hn' : (o'.name :: os.map ObjData.name).Nodup := by simpa using hn
    rw [renameAvatarRoot_cons] at ho
    by_cases h : o'.name = "AvatarRoot"
    · rw [if_pos h] at ho
      rcases List.mem_cons.mp ho with rfl | ho
      · intro hc
        simp at hc
      · intro hc
        have hmemn : "AvatarRoot" ∈ os.map ObjData.name :=
          List.mem_map.mpr ⟨o, ho, hc⟩
        have hnm := (List.nodup_cons.mp hn').1
        rw [h] at hnm
        exact hnm hmemn
    · rw [if_neg h] at ho
      rcases List.mem_cons.mp ho with rfl | ho
      · exact h
      · exact renameAvatarRoot_no_root os hn'.of_cons o ho

theorem mem_setObjName_shapeKeys : ∀ (s : Scene) (i : Nat) (t : String)
    (o : ObjData), o ∈ setObjName s i t →
    ∃ o' ∈ s, o.shapeKeys = o'.shapeKeys
  | [], _, _, o, h => by simp [setObjName] at h
  | o' :: os, 0, t, o, h => by
    rcases List.mem_cons.mp h with rfl | h
    · exact ⟨o', by simp, rfl⟩
    · exact ⟨o, by simp [h], rfl⟩
  | o' :: os, i + 1, t, o, h => by
    rcases List.mem_cons.mp h with rfl | h
    · exact ⟨o, by simp, rfl⟩
    · obtain ⟨o2, ho2, hk⟩ := mem_setObjName_shapeKeys os i t o h
      exact ⟨o2, by simp [ho2], hk⟩

theorem SceneOk_renameAvatarRoot {s : Scene} (h : SceneOk s = true) :
    SceneOk (renameAvatarRoot s) = true := by
  unfold renameAvatarRoot
  cases hf : sceneFind s "AvatarRoot" with
  | none => exact h
  | some i =>
    refine List.all_eq_true.mpr ?_
    intro o ho
    obtain ⟨o', ho', hk⟩ := mem_setObjName_shapeKeys s i "Armature" o ho
    have h1 := List.all_eq_true.mp h o' ho'
    show (match o.shapeKeys with
      | some keys => KeysOk keys
      | none => true) = true
    rw [hk]
    exact h1

/-! ## Claim theorems -/

/-- Claim C2: The shape-key rename table is a fixed list of exactly 15
(source, target) string pairs — immutable by construction, as a Lean `def`
of a list literal — whose first entry is `("sil", "viseme_sil")`, whose
second is `("PP", "viseme_PP")`, and whose last is `("ou", "viseme_U")`. -/
theorem C2_table :
    shapekeyMap.length = 15 ∧
      shapekeyMap[0]? = some ("sil", "viseme_sil") ∧
      shapekeyMap[1]? = some ("PP", "viseme_PP") ∧
      shapekeyMap.getLast? = some ("ou", "viseme_U") := by
  decide

/-- Claim C1: After the rename pass (for every recursion fuel), every scene
object carrying shape-key data has its key blocks renamed by a single table
lookup on the original name; in particular every key block whose name
equals a source name of the table is renamed to the corresponding target
viseme name.  The scene collection is flat, so it contains every root
object and every descendant of one.  The hypothesis `SceneOk` is Blender's
invariant that key names are unique within one key-blocks collection. -/
theorem C1_rename_all (s : Scene) (fuel : Nat) (hs : SceneOk s = true)
    (i : Nat) (o : ObjData) (keys : List KeyBlock)
    (hi : s[i]? = some o) (hk : o.shapeKeys = some keys) :
    ∃ o', (renamePass s fuel).scene[i]? = some o' ∧
      o'.shapeKeys = some (keys.map (specRename shapekeyMap)) ∧
      ∀ (j : Nat) (k : KeyBlock) (p : String × String),
        keys[j]? = some k → p ∈ shapekeyMap → k.name = p.1 →
        (keys.map (specRename shapekeyMap))[j]? = some ⟨p.2, k.value⟩ := by
  obtain ⟨hscene, _⟩ := renamePass_spec fuel hs
  refine ⟨renameObj o, ?_, ?_, ?_⟩
  · rw [hscene, List.getElem?_map, hi]
    rfl
  · rw [renameObj_some hk]
  · intro j k p hj hp hkp
    rw [List.getElem?_map, hj]
    have hfind : shapekeyMap.find? (fun q => q.1 == k.name) = some p := by
      rw [hkp]
      exact shapekeyMap_find_self p hp
    simp [specRename, hfind]

/-- Witness for C1 at a one-object scene bearing a shape key `"aa"`. -/
theorem C1_witness :
    ∃ o', (renamePass [⟨"Face", some [⟨"aa", 7⟩], []⟩] 1).scene[0]? =
        some o' ∧
      o'.shapeKeys =
        some (([⟨"aa", 7⟩] : List KeyBlock).map (specRename shapekeyMap)) ∧
      ∀ (j : Nat) (k : KeyBlock) (p : String × String),
        ([⟨"aa", 7⟩] : List KeyBlock)[j]? = some k →
        p ∈ shapekeyMap → k.name = p.1 →
        (([⟨"aa", 7⟩] : List KeyBlock).map (specRename shapekeyMap))[j]? =
          some ⟨p.2, k.value⟩ :=
  C1_rename_all [⟨"Face", some [⟨"aa", 7⟩], []⟩] 1 (by decide) 0
    ⟨"Face", some [⟨"aa", 7⟩], []⟩ [⟨"aa", 7⟩] (by decide) rfl

/-- Claim C3: A shape key named `"aa"` ends up named `"viseme_aa"` with its
payload untouched, and a shape key whose name is not one of the 15 source
names is left entirely unchanged (same position, same name, same
payload). -/
theorem C3_aa_frame (s : Scene) (fuel : Nat) (hs : SceneOk s = true)
    (i : Nat) (o : ObjData) (keys : List KeyBlock) (j : Nat) (k : KeyBlock)
    (hi : s[i]? = some o) (hk : o.shapeKeys = some keys)
    (hj : keys[j]? = some k) :
    ∃ o' keys', (renamePass s fuel).scene[i]? = some o' ∧
      o'.shapeKeys = some keys' ∧ keys'.length = keys.length ∧
      (k.name = "aa" → keys'[j]? = some ⟨"viseme_aa", k.value⟩) ∧
      (k.name ∉ shapekeyMap.map Prod.fst → keys'[j]? = some k) := by
  obtain ⟨hscene, _⟩ := renamePass_spec fuel hs
  refine ⟨renameObj o, keys.map (specRename shapekeyMap), ?_, ?_, ?_, ?_, ?_⟩
  · rw [hscene, List.getElem?_map, hi]
    rfl
  · rw [renameObj_some hk]
  · simp
  · intro ha
    rw [List.getElem?_map, hj]
    have hfind : shapekeyMap.find? (fun q => q.1 == k.name) =
        some ("aa", "viseme_aa") := by
      rw [ha]
      decide
    simp [specRename, hfind]
  · intro hnot
    rw [List.getElem?_map, hj]
    have hfind : shapekeyMap.find? (fun q => q.1 == k.name) = none := by
      refine List.find?_eq_none.mpr ?_
      intro q hq
      simp only [beq_iff_eq]
      intro hEq
      exact hnot (List.mem_map.mpr ⟨q, hq, hEq⟩)
    simp [specRename, hfind]

/-- Witness for C3: a mesh with keys `"Basis"` and `"aa"`. -/
theorem C3_witness :
    ∃ o' keys',
      (renamePass [⟨"Face", some [⟨"Basis", 0⟩, ⟨"aa", 1⟩], []⟩] 1).scene[0]? =
        some o' ∧
      o'.shapeKeys = some keys' ∧
      keys'.length = ([⟨"Basis", 0⟩, ⟨"aa", 1⟩] : List KeyBlock).length ∧
      ((KeyBlock.mk "aa" 1).name = "aa" →
        keys'[1]? = some ⟨"viseme_aa", (KeyBlock.mk "aa" 1).value⟩) ∧
      ((KeyBlock.mk "aa" 1).name ∉ shapekeyMap.map Prod.fst →
        keys'[1]? = some ⟨"aa", 1⟩) :=
  C3_aa_frame [⟨"Face", some [⟨"Basis", 0⟩, ⟨"aa", 1⟩], []⟩] 1 (by decide) 0
    ⟨"Face", some [⟨"Basis", 0⟩, ⟨"aa", 1⟩], []⟩ [⟨"Basis", 0⟩, ⟨"aa", 1⟩]
    1 ⟨"aa", 1⟩ (by decide) rfl (by decide)

/-- Claim C7: On a scene in which no object's shape keys bear any of the 15
source names, the pass leaves the scene unchanged and reports a count of
zero (it also prints no rename lines). -/
theorem C7_no_match (s : Scene) (fuel : Nat) (h : NoSources s = true) :
    (renamePass s fuel).scene = s ∧ (renamePass s fuel).count = 0 := by
  rw [renamePass_id fuel (NoSources_spec h)]
  exact ⟨rfl, rfl⟩

/-- Witness for C7: one mesh whose only key is `"Basis"`. -/
theorem C7_witness :
    (renamePass [⟨"Mesh", some [⟨"Basis", 0⟩], []⟩] 2).scene =
        [⟨"Mesh", some [⟨"Basis", 0⟩], []⟩] ∧
      (renamePass [⟨"Mesh", some [⟨"Basis", 0⟩], []⟩] 2).count = 0 :=
  C7_no_match [⟨"Mesh", some [⟨"Basis", 0⟩], []⟩] 2 (by decide)

/-- Claim C8: No target of the rename table occurs as a source of the table
(every target begins with the seven characters `"viseme_"` and no source
does), so within one run of the inner loop each key block is renamed at
most once: the final key list is a single table lookup per key block on
its original name, and a renamed key is never matched again by a later
entry. -/
theorem C8_rename_once (keys : List KeyBlock) (h : KeysOk keys = true) :
    (∀ p ∈ shapekeyMap,
        p.2.data.take 7 = "viseme_".data ∧
        p.1.data.take 7 ≠ "viseme_".data ∧
        ∀ q ∈ shapekeyMap, p.2 ≠ q.1) ∧
      (runMap shapekeyMap keys 0 []).1 = keys.map (specRename shapekeyMap) := by
  constructor
  · decide
  · rw [runMap_shapekeyMap 0 [] h]

/-- Witness for C8 at a concrete key list. -/
theorem C8_witness :
    (∀ p ∈ shapekeyMap,
        p.2.data.take 7 = "viseme_".data ∧
        p.1.data.take 7 ≠ "viseme_".data ∧
        ∀ q ∈ shapekeyMap, p.2 ≠ q.1) ∧
      (runMap shapekeyMap [⟨"PP", 0⟩, ⟨"zz", 1⟩] 0 []).1 =
        ([⟨"PP", 0⟩, ⟨"zz", 1⟩] : List KeyBlock).map
          (specRename shapekeyMap) :=
  C8_rename_once [⟨"PP", 0⟩, ⟨"zz", 1⟩] (by decide)

/-- Claim C9: The pass iterates over every scene object and traverses each
object's descendants, so non-root objects are visited more than once; it
nevertheless produces the same final scene and the same processed count as
the pass that visits each scene object exactly once, because a rename
removes the source name and a revisit finds nothing to rename. -/
theorem C9_refines_single_visit (s : Scene) (fuel : Nat)
    (hs : SceneOk s = true) :
    (renamePass s fuel).scene = (singlePass s).scene ∧
      (renamePass s fuel).count = (singlePass s).count := by
  obtain ⟨h1, h2⟩ := renamePass_spec fuel hs
  obtain ⟨h3, h4⟩ := singlePass_spec hs
  exact ⟨h1.trans h3.symm, h2.trans h4.symm⟩

/-- Witness for C9: a parent whose child carries a shape key, so the child
is visited both directly and through its parent. -/
theorem C9_witness :
    (renamePass [⟨"Root", none, [1]⟩, ⟨"Child", some [⟨"oh", 4⟩], []⟩]
        3).scene =
      (singlePass [⟨"Root", none, [1]⟩, ⟨"Child", some [⟨"oh", 4⟩], []⟩]).scene ∧
      (renamePass [⟨"Root", none, [1]⟩, ⟨"Child", some [⟨"oh", 4⟩], []⟩]
          3).count =
        (singlePass
          [⟨"Root", none, [1]⟩, ⟨"Child", some [⟨"oh", 4⟩], []⟩]).count :=
  C9_refines_single_visit
    [⟨"Root", none, [1]⟩, ⟨"Child", some [⟨"oh", 4⟩], []⟩] 3 (by decide)

/-- Claim C6: If a scene object named `"AvatarRoot"` exists, the object at
the found position — the first such object — is renamed to `"Armature"`
and every other position is untouched; if none exists, the step does
nothing at all (no error is raised: the `-1` case simply skips the
assignment). -/
theorem C6_avatar_root (s : Scene) :
    ((∃ o ∈ s, o.name = "AvatarRoot") →
      ∃ (i : Nat) (o : ObjData), sceneFind s "AvatarRoot" = some i ∧
        s[i]? = some o ∧ o.name = "AvatarRoot" ∧
        (renameAvatarRoot s)[i]? = some { o with name := "Armature" } ∧
        ∀ j : Nat, j ≠ i → (renameAvatarRoot s)[j]? = s[j]?) ∧
    ((∀ o ∈ s, o.name ≠ "AvatarRoot") → renameAvatarRoot s = s) := by
  constructor
  · intro hex
    have hsome : (sceneFind s "AvatarRoot").isSome = true :=
      sceneFind_isSome.mpr hex
    obtain ⟨i, hi⟩ := Option.isSome_iff_exists.mp hsome
    obtain ⟨o, ho, hname⟩ := sceneFind_some hi
    refine ⟨i, o, hi, ho, hname, ?_, ?_⟩
    · unfold renameAvatarRoot
      rw [hi]
      exact getElem?_setObjName_self s i "Armature" o ho
    · intro j hj
      unfold renameAvatarRoot
      rw [hi]
      exact getElem?_setObjName_ne s i j "Armature" hj
  · intro hnone
    unfold renameAvatarRoot
    rw [sceneFind_eq_none.mpr hnone]

/-- Witness for C6 at a one-object scene named `"AvatarRoot"`. -/
theorem C6_witness :
    ∃ (i : Nat) (o : ObjData),
      sceneFind [⟨"AvatarRoot", none, []⟩] "AvatarRoot" = some i ∧
      ([⟨"AvatarRoot", none, []⟩] : Scene)[i]? = some o ∧
      o.name = "AvatarRoot" ∧
      (renameAvatarRoot [⟨"AvatarRoot", none, []⟩])[i]? =
        some { o with name := "Armature" } ∧
      ∀ j : Nat, j ≠ i →
        (renameAvatarRoot [⟨"AvatarRoot", none, []⟩])[j]? =
          ([⟨"AvatarRoot", none, []⟩] : Scene)[j]? :=
  (C6_avatar_root [⟨"AvatarRoot", none, []⟩]).1
    ⟨⟨"AvatarRoot", none, []⟩, by simp, rfl⟩

/-- Claim C4: A scene produced by one full processing (root rename followed
by the shape-key pass, any fuel) contains no shape key bearing a source
name and no object named `"AvatarRoot"`, so running the processing again —
with any fuel — changes nothing, counts zero renames, and prints no rename
line.  The hypotheses are Blender's uniqueness invariants on the input
scene: key names unique per object, object names unique in the scene. -/
theorem C4_idempotent (s : Scene) (fuel fuel2 : Nat)
    (hs : SceneOk s = true) (hn : (s.map ObjData.name).Nodup) :
    NoSources (processScene s fuel).scene = true ∧
      sceneFind (processScene s fuel).scene "AvatarRoot" = none ∧
      processScene (processScene s fuel).scene fuel2 =
        ⟨(processScene s fuel).scene, 0, []⟩ := by
  have hs1 : SceneOk (renameAvatarRoot s) = true := SceneOk_renameAvatarRoot hs
  obtain ⟨hscene, hcount⟩ :=
    renamePass_spec fuel hs1
  have hps : (processScene s fuel).scene = (renameAvatarRoot s).map renameObj :=
    hscene
  have hnosrc : NoSources (processScene s fuel).scene = true := by
    rw [hps]
    refine List.all_eq_true.mpr ?_
    intro o ho
    rw [List.mem_map] at ho
    obtain ⟨o', ho', rfl⟩ := ho
    show (match (renameObj o').shapeKeys with
      | some keys =>
          keys.all (fun k => shapekeyMap.all (fun p => !(k.name == p.1)))
      | none => true) = true
    cases hsk : o'.shapeKeys with
    | none => rw [renameObj_none hsk, hsk]
    | some keys =>
      have hsk2 : (renameObj o').shapeKeys =
          some (keys.map (specRename shapekeyMap)) := by
        rw [renameObj_some hsk]
      rw [hsk2]
      refine List.all_eq_true.mpr ?_
      intro k hkmem
      refine List.all_eq_true.mpr ?_
      intro p hp
      have hnone := keysFind_eq_none.mp (mapped_no_sources keys p hp) k hkmem
      simpa using hnone
  have hroot : sceneFind (processScene s fuel).scene "AvatarRoot" = none := by
    rw [hps]
    refine sceneFind_eq_none.mpr ?_
    intro o ho
    rw [List.mem_map] at ho
    obtain ⟨o', ho', rfl⟩ := ho
    show o'.name ≠ "AvatarRoot"
    exact renameAvatarRoot_no_root s hn o' ho'
  refine ⟨hnosrc, hroot, ?_⟩
  have hA : renameAvatarRoot (processScene s fuel).scene =
      (processScene s fuel).scene := by
    unfold renameAvatarRoot
    rw [hroot]
  show renamePass (renameAvatarRoot (processScene s fuel).scene) fuel2 =
    ⟨(processScene s fuel).scene, 0, []⟩
  rw [hA]
  exact renamePass_id fuel2 (NoSources_spec hnosrc)

/-- Witness for C4: a scene with an `"AvatarRoot"` object bearing a shape
key `"aa"`. -/
theorem C4_witness :
    NoSources (processScene [⟨"AvatarRoot", some [⟨"aa", 0⟩], []⟩] 1).scene =
        true ∧
      sceneFind (processScene [⟨"AvatarRoot", some [⟨"aa", 0⟩], []⟩] 1).scene
          "AvatarRoot" = none ∧
      processScene (processScene [⟨"AvatarRoot", some [⟨"aa", 0⟩], []⟩]
            1).scene 1 =
        ⟨(processScene [⟨"AvatarRoot", some [⟨"aa", 0⟩], []⟩] 1).scene,
          0, []⟩ :=
  C4_idempotent [⟨"AvatarRoot", some [⟨"aa", 0⟩], []⟩] 1 1 (by decide)
    (by decide)

/-! ## Argument handling and exit behaviour -/

theorem findSep_eq_none {argv : List String} :
    findSep argv = none ↔ "--" ∉ argv := by
  induction argv with
  | nil => simp [findSep]
  | cons a as ih =>
    by_cases h : a = "--"
    · simp [findSep, h]
    · simp only [findSep, if_neg h, Option.map_eq_none', ih,
        List.mem_cons, not_or]
      constructor
      · exact fun hn => ⟨fun hh => h hh.symm, hn⟩
      · exact fun hn => hn.2

theorem scriptStart_of_no_sep {argv : List String} (h : "--" ∉ argv) :
    scriptStart argv = .valueError := by
  unfold scriptStart
  rw [findSep_eq_none.mpr h]

/-- Claim C10: The usage check sits after the `argv.index("--")` slice, so
it is only reachable when the separator `"--"` occurs in the argument
vector; for every argument vector without `"--"`, the script dies of the
uncaught `ValueError` (modelled as the `none` run result) before printing
the usage message or calling `exit`. -/
theorem C10_sep_required (argv : List String)
    (importF : String → Except String Scene)
    (exportF : Scene → Option String) (fuel : Nat) :
    ("--" ∉ argv → scriptStart argv = .valueError ∧
      runScript argv importF exportF fuel = none) ∧
    (scriptStart argv = .usageExit → "--" ∈ argv) := by
  constructor
  · intro h
    have h1 := scriptStart_of_no_sep h
    refine ⟨h1, ?_⟩
    unfold runScript
    rw [h1]
  · intro h
    by_contra hmem
    rw [scriptStart_of_no_sep hmem] at h
    simp at h

/-- Witness for C10: the argument vector `["blender", "x.glb"]` has no
separator. -/
theorem C10_witness :
    scriptStart ["blender", "x.glb"] = .valueError ∧
      runScript ["blender", "x.glb"] (fun _ => .ok ([] : Scene))
        (fun _ => none) 0 = none :=
  (C10_sep_required ["blender", "x.glb"] (fun _ => .ok ([] : Scene))
    (fun _ => none) 0).1 (by decide)

theorem scriptStart_ne_valueError {argv : List String}
    (hsep : "--" ∈ argv) : scriptStart argv ≠ .valueError := by
  unfold scriptStart
  cases hf : findSep argv with
  | none => exact absurd hsep (findSep_eq_none.mp hf)
  | some k =>
    cases h2 : argv.drop (k + 1) <;> simp [h2]

/-- Claim C5: Under the documented invocation shape (the argument vector
contains the `"--"` separator, as every `blender -- <file>` invocation
does), the run completes with some result, and its exit status is non-zero
exactly when the input argument is missing, the import fails, or the
export fails; in each of those cases the last printed line is the
corresponding error (or usage) message, and in every other run the script
exits normally with `0` after printing the progress lines, ending in the
completion banner. -/
theorem C5_exit_behaviour (argvFull : List String)
    (importF : String → Except String Scene) (exportF : Scene → Option String)
    (fuel : Nat) (hsep : "--" ∈ argvFull) :
    ∃ r : RunResult, runScript argvFull importF exportF fuel = some r ∧
      ((r.exitCode ≠ 0) ↔
        (scriptStart argvFull = .usageExit ∨
          ∃ f, scriptStart argvFull = .proceed f ∧
            ((∃ e, importF f = .error e) ∨
              (∃ s0 e, importF f = .ok s0 ∧
                exportF (renamePass (renameAvatarRoot s0) fuel).scene =
                  some e)))) ∧
      (r.exitCode ≠ 0 →
        (r.log.getLast? = some usageMsg ∨
          (∃ e, r.log.getLast? = some (importFailMsg e)) ∨
          (∃ e, r.log.getLast? = some (exportFailMsg e)))) ∧
      (r.exitCode = 0 → r.log.getLast? = some doneMsg) := by
  cases hss : scriptStart argvFull with
  | valueError => exact absurd hss (scriptStart_ne_valueError hsep)
  | usageExit =>
    refine ⟨⟨1, [usageMsg]⟩, ?_, ?_, ?_, ?_⟩
    · simp only [runScript, hss]
    · exact iff_of_true (by simp) (Or.inl rfl)
    · intro _
      exact Or.inl rfl
    · intro h0
      simp at h0
  | proceed f =>
    cases himp : importF f with
    | error e =>
      refine ⟨⟨1, [processingMsg f, importFailMsg e]⟩, ?_, ?_, ?_, ?_⟩
      · simp only [runScript, hss, himp]
        rfl
      · exact iff_of_true (by simp) (Or.inr ⟨f, rfl, Or.inl ⟨e, himp⟩⟩)
      · intro _
        exact Or.inr (Or.inl ⟨e, rfl⟩)
      · intro h0
        simp at h0
    | ok s0 =>
      cases hexp : exportF (renamePass (renameAvatarRoot s0) fuel).scene with
      | some e =>
        refine ⟨⟨1, progressLog f s0 fuel ++ [exportFailMsg e]⟩, ?_, ?_, ?_, ?_⟩
        · simp only [runScript, hss, himp, hexp]
        · exact iff_of_true (by simp)
            (Or.inr ⟨f, rfl, Or.inr ⟨s0, e, himp, hexp⟩⟩)
        · intro _
          exact Or.inr (Or.inr ⟨e, List.getLast?_concat _⟩)
        · intro h0
          simp at h0
      | none =>
        refine ⟨⟨0, progressLog f s0 fuel ++ [exportOkMsg, doneMsg]⟩,
          ?_, ?_, ?_, ?_⟩
        · simp only [runScript, hss, himp, hexp]
        · refine iff_of_false (by simp) ?_
          rintro (h | ⟨f', hf', (⟨e, he⟩ | ⟨s0', e, hok, hex⟩)⟩)
          · simp at h
          · injection hf' with hf2
            rw [← hf2] at he
            rw [himp] at he
            simp at he
          · injection hf' with hf2
            rw [← hf2] at hok
            rw [himp] at hok
            injection hok with hs2
            rw [← hs2] at hex
            rw [hexp] at hex
            simp at hex
        · intro h0
          simp at h0
        · intro _
          rw [show progressLog f s0 fuel ++ [exportOkMsg, doneMsg] =
            (progressLog f s0 fuel ++ [exportOkMsg]) ++ [doneMsg] from by
              simp]
          exact List.getLast?_concat _

/-- Witness for C5: a successful run on the separator-plus-file argument
vector, with an import returning the empty scene and a succeeding
export. -/
theorem C5_witness :
    ∃ r : RunResult, runScript ["--", "a.glb"] (fun _ => .ok ([] : Scene))
        (fun _ => none) 0 = some r ∧
      ((r.exitCode ≠ 0) ↔
        (scriptStart ["--", "a.glb"] = .usageExit ∨
          ∃ f, scriptStart ["--", "a.glb"] = .proceed f ∧
            ((∃ e, (fun _ : String => (.ok ([] : Scene) :
                Except String Scene)) f = .error e) ∨
              (∃ s0 e, (fun _ : String => (.ok ([] : Scene) :
                  Except String Scene)) f = .ok s0 ∧
                (fun _ : Scene => (none : Option String))
                  (renamePass (renameAvatarRoot s0) 0).scene = some e)))) ∧
      (r.exitCode ≠ 0 →
        (r.log.getLast? = some usageMsg ∨
          (∃ e, r.log.getLast? = some (importFailMsg e)) ∨
          (∃ e, r.log.getLast? = some (exportFailMsg e)))) ∧
      (r.exitCode = 0 → r.log.getLast? = some doneMsg) :=
  C5_exit_behaviour ["--", "a.glb"] (fun _ => .ok ([] : Scene))
    (fun _ => none) 0 (by decide)

end SdkAvatars
